import Mathlib

/-!
Verification of the Budget Pro local persistence layer (`src/bp/db.js`).

The IndexedDB-backed store is embedded shallowly: the two object stores
(`users`, `expenses`) become lists of records together with their
autoincrement counters, and every `DB.*` operation of `db.js` becomes a
pure Lean function over that state.  JavaScript numbers that the code only
ever adds, compares and rounds are modelled as `Rat`; `NaN` produced by a
failed numeric coercion (`Number(x)`, `+x`) is modelled as `Option.none`.
Date strings (`YYYY-MM-DD`) stay plain strings, ordered lexicographically,
which on that fixed ASCII format agrees with the JavaScript string
comparison / `localeCompare` used by the code.  The wall clock enters
`getExpenses` only through the three derived cut-off strings, so it is
modelled as an opaque record of those strings.
-/

/-- A record of the `users` object store (`db.js` schema, version 5). -/
structure User where
  id : Nat
  username : String
  pinHash : String
  createdAt : Nat
deriving Repr, DecidableEq

/-- A record of the `expenses` object store, exactly the object built by
`DB.addExpense`: `hour`/`minute` are whatever number `Number(x) || 0`
produced (the code performs no range check), `ts` is the `Date.now()`
insertion timestamp used as the stable tie-break of the sort. -/
structure Expense where
  id : Nat
  user_id : Int
  name : String
  amount : Rat
  category : String
  date : String
  hour : Rat
  minute : Rat
  ts : Nat
deriving Repr, DecidableEq

/-- The whole IndexedDB database `BudgetProDB`: both object stores plus the
autoincrement key generators (IndexedDB starts them at 1, keys are never
reused). -/
structure Store where
  users : List User
  nextUserId : Nat
  expenses : List Expense
  nextExpenseId : Nat
deriving Repr, DecidableEq

/-- A freshly created database, as after `onupgradeneeded`. -/
def emptyStore : Store := ⟨[], 1, [], 1⟩

/-- The `{id, username}` view returned by `createUser` / `verifyUser`
(the pin hash is never returned). -/
structure UserView where
  id : Nat
  username : String
deriving Repr, DecidableEq

/-- The raw `{name, amount, category, date, hour, minute}` object handed to
`DB.addExpense`.  `amount`, `hour`, `minute` model the result of the
JavaScript numeric coercion (`+amount`, `Number(hour)`, `Number(minute)`):
`none` stands for `NaN` (absent or non-numeric input), `some q` for the
numeric value.  `category` and `date` model the raw strings, with `""`
standing for the falsy/absent case. -/
structure ExpenseInput where
  name : String
  amount : Option Rat
  category : String
  date : String
  hour : Option Rat
  minute : Option Rat
deriving Repr, DecidableEq

/-- Model of `name.trim()`: strip leading and trailing whitespace (JavaScript trims
its whitespace set; the ASCII part coincides with `Char.isWhitespace`). -/
def jsTrim (s : String) : String :=
  ⟨((s.data.dropWhile Char.isWhitespace).reverse.dropWhile
      Char.isWhitespace).reverse⟩

/-- Model of `username.toLowerCase()` (ASCII lowercasing, which covers every
username the claims exercise). -/
def jsLower (s : String) : String := ⟨s.data.map Char.toLower⟩

/-- Model of `s.slice(0, n)`: the first `n` characters (UTF-16 units and code
points coincide on the ASCII date strings the code slices). -/
def strTake (s : String) (n : Nat) : String := ⟨s.data.take n⟩

/-- Model of `(+amount).toFixed(2)` followed by `parseFloat`: the nearest multiple of
1/100, ties resolved towards the larger value, exactly as specified for
`Number.prototype.toFixed`. -/
def toFixed2 (q : Rat) : Rat := ((q * 100 + 1 / 2).floor : Int) / 100

/-- The JavaScript truthiness test `+amount > 0` (false for `NaN`). -/
def numPos : Option Rat → Bool
  | some a => decide (0 < a)
  | none => false

/-- Model of `DB.addExpense(userId, {name, amount, category, date, hour, minute})`
(`db.js` lines 160-180).  Validation happens before the store is touched;
on success the record is appended with the next autoincrement key.  The
French messages are the ones thrown by the source. -/
def addExpense (s : Store) (userId : Int) (inp : ExpenseInput) (ts : Nat) :
    Except String (Store × Nat) :=
  if jsTrim inp.name = "" then .error "Le nom est requis."
  else if !numPos inp.amount then .error "Montant invalide (doit être > 0)."
  else if inp.date = "" then .error "La date est requise."
  else
    let record : Expense :=
      { id := s.nextExpenseId
        user_id := userId
        name := jsTrim inp.name
        amount := toFixed2 (inp.amount.getD 0)
        category := if inp.category = "" then "Alimentation" else inp.category
        date := inp.date
        hour := inp.hour.getD 0
        minute := inp.minute.getD 0
        ts := ts }
    .ok ({ s with expenses := s.expenses ++ [record],
                  nextExpenseId := s.nextExpenseId + 1 }, record.id)

/-- Runner for `addExpense`: the operation together with the store it leaves behind: every validation
failure in `db.js` throws before `_add` runs, so on error the store is
unchanged. -/
def addExpenseRun (s : Store) (userId : Int) (inp : ExpenseInput) (ts : Nat) :
    Store × Except String Nat :=
  match addExpense s userId inp ts with
  | .error m => (s, .error m)
  | .ok (s', newId) => (s', .ok newId)

/-- Model of `DB.deleteExpense(userId, id)` (`db.js` lines 231-237): `_get` by primary
key, ownership check by value, then `_delete` by key.  Primary keys are
unique in IndexedDB, so deletion removes exactly the records carrying the
key. -/
def deleteExpense (s : Store) (userId : Int) (id : Nat) : Except String Store :=
  match s.expenses.find? (fun x => x.id == id) with
  | some e =>
      if e.user_id == userId then
        .ok { s with expenses := s.expenses.filter (fun x => x.id != id) }
      else .error "Dépense introuvable."
  | none => .error "Dépense introuvable."

/-- Runner for `deleteExpense`: the operation together with the store it leaves behind (unchanged on
the not-found throw). -/
def deleteExpenseRun (s : Store) (userId : Int) (id : Nat) :
    Store × Except String Bool :=
  match deleteExpense s userId id with
  | .error m => (s, .error m)
  | .ok s' => (s', .ok true)

/-- The three date strings `getExpenses` derives from `new Date()`:
`today = _ds(now)`, `threeDaysAgo = _ds(now - 2*864e5)` and
`weekStart = _ds(monday of the current week)`.  Their computation from the
clock instant is opaque here; the code only ever compares them to the
stored date strings. -/
structure Clock where
  today : String
  threeDaysAgo : String
  weekStart : String
deriving Repr, DecidableEq

/-- The period predicate of `DB.getExpenses` (`db.js` lines 199-213): the
`switch (period)` over the five recognized period names, any other value
falling through to `return true` (the `"all"` behaviour). -/
def periodKeep (clk : Clock) (period : String) (e : Expense) : Bool :=
  if period = "today" then e.date == clk.today
  else if period = "3days" then decide (clk.threeDaysAgo ≤ e.date)
  else if period = "week" then decide (clk.weekStart ≤ e.date)
  else if period = "month" then strTake e.date 7 == strTake clk.today 7
  else if period = "year" then strTake e.date 4 == strTake clk.today 4
  else true

/-- The sort comparator of `DB.getExpenses` (`db.js` lines 221-226), as the
"`a` sorts no later than `b`" relation: the comparator
`String(b.date).localeCompare(String(a.date)) || (b.hour - a.hour) ||
(b.minute - a.minute) || (b.ts - a.ts)` is `≤ 0` exactly when `a` is
lexicographically no smaller than `b` on (date, hour, minute, ts). -/
def expLE (a b : Expense) : Bool :=
  decide (b.date < a.date) ||
    (b.date == a.date &&
      (decide (b.hour < a.hour) ||
        (b.hour == a.hour &&
          (decide (b.minute < a.minute) ||
            (b.minute == a.minute && decide (b.ts ≤ a.ts))))))

/-- Model of `DB.getExpenses(userId, period = 'all', category = 'Toutes')` (`db.js`
lines 187-229): read the whole store, filter by user, by period, by
category unless the category is falsy or the sentinel `'Toutes'`, then sort
descending.  `Array.prototype.sort` is stable with this comparator, as is
`List.mergeSort`. -/
def getExpenses (clk : Clock) (s : Store) (userId : Int)
    (period : String := "all") (category : String := "Toutes") : List Expense :=
  let list := s.expenses.filter (fun e => e.user_id == userId)
  let list := list.filter (periodKeep clk period)
  let list :=
    if category != "" && category != "Toutes" then
      list.filter (fun e => e.category == category)
    else list
  list.mergeSort expLE

/-- JavaScript object update `acc[k] = v`: overwrite in place when the key
exists, otherwise append the new key at the end (objects preserve insertion
order of string keys). -/
def objUpd (m : List (String × Rat)) (k : String) (v : Rat) :
    List (String × Rat) :=
  if m.any (fun p => p.1 == k) then
    m.map (fun p => if p.1 == k then (p.1, v) else p)
  else m ++ [(k, v)]

/-- JavaScript object read `acc[k] || 0` (an absent key reads `undefined`,
which `|| 0` turns into `0`; a stored `0` also reads back `0`). -/
def objGetD (m : List (String × Rat)) (k : String) : Rat :=
  match m.find? (fun p => p.1 == k) with
  | some p => p.2
  | none => 0

/-- JavaScript membership test `k in map`. -/
def hasKey (m : List (String × Rat)) (k : String) : Bool :=
  m.any (fun p => p.1 == k)

/-- One step of the `reduce` in `DB.statsByCategory`:
`acc[e.category] = (acc[e.category] || 0) + e.amount`. -/
def catStep (acc : List (String × Rat)) (e : Expense) : List (String × Rat) :=
  objUpd acc e.category (objGetD acc e.category + e.amount)

/-- Model of `DB.statsByCategory(userId, period)` (`db.js` lines 240-246): fold the
query result into an object `acc[e.category] = (acc[e.category] || 0) +
e.amount`, modelled as an insertion-ordered association list. -/
def statsByCategory (clk : Clock) (s : Store) (userId : Int)
    (period : String) : List (String × Rat) :=
  (getExpenses clk s userId period "Toutes").foldl catStep []

/-- The French month abbreviations `MN` of `DB.statsByMonth`. -/
def MN : List String :=
  ["Jan", "Fév", "Mar", "Avr", "Mai", "Jun", "Jul", "Aoû", "Sep", "Oct", "Nov", "Déc"]

/-- Model of `String(n).padStart(2, "0")`. -/
def pad2 (n : Int) : String :=
  let str := toString n
  if str.length < 2 then "0" ++ str else str

/-- The year interpretation of the `Date(year, month, 1)` constructor:
a year argument between 0 and 99 means 1900 + year. -/
def jsDateYear (y : Int) : Int := if 0 ≤ y ∧ y < 100 then y + 1900 else y

/-- The `YYYY-MM` key `DB.statsByMonth` builds for `new Date(y, mm, 1)`:
the constructor normalizes an out-of-range month into the year (floor
division), and the key is `getFullYear() + "-" + pad2(getMonth() + 1)`. -/
def monthKey (y mm : Int) : String :=
  let t := jsDateYear y * 12 + mm
  toString (t.ediv 12) ++ "-" ++ pad2 (t.emod 12 + 1)

/-- The 12 trailing month keys generated by `DB.statsByMonth` for a clock
whose `getFullYear()` is `y` and `getMonth()` is `m`:
`new Date(y, m - 11 + i, 1)` for `i = 0 .. 11`. -/
def statsKeys (y m : Int) : List String :=
  (List.range 12).map (fun i : Nat => monthKey y (m - 11 + (i : Int)))

/-- The label `statsByMonth` derives from a key: `k.split("-")` into
`[y, m]`, then `MN[+m - 1] + " " + y`. -/
def monthLabel (k : String) : String :=
  let parts := k.splitOn "-"
  MN.getD ((parts.getD 1 "").toNat?.getD 0 - 1) "undefined" ++ " "
    ++ parts.getD 0 ""

/-- One step of the expense loop in `DB.statsByMonth`:
`if (k in map) map[k] += e.amount` for `k = e.date.slice(0, 7)`. -/
def monthStep (acc : List (String × Rat)) (e : Expense) : List (String × Rat) :=
  let k := strTake e.date 7
  if hasKey acc k then objUpd acc k (objGetD acc k + e.amount) else acc

/-- Model of `DB.statsByMonth(userId)` (`db.js` lines 259-283) for a clock reading
year `y`, month index `m`: filter the whole store by user, build the
object mapping each of the 12 trailing month keys to 0
(`Object.fromEntries`), add each expense whose `date.slice(0, 7)` is a key
of the object (`if (k in map) map[k] += e.amount`), and return the
parallel label / value arrays read off in key order. -/
def statsByMonth (s : Store) (userId : Int) (y m : Int) :
    List String × List Rat :=
  let mine := s.expenses.filter (fun e => e.user_id == userId)
  let keys := statsKeys y m
  let map0 := keys.foldl (fun acc k => objUpd acc k 0) []
  let map1 := mine.foldl monthStep map0
  (keys.map monthLabel, keys.map (fun k => objGetD map1 k))

/-- UTF-8 bytes of one code point, as produced by `TextEncoder`. -/
def utf8Bytes (c : Nat) : List Nat :=
  if c < 128 then [c]
  else if c < 2048 then [192 + c / 64, 128 + c % 64]
  else if c < 65536 then [224 + c / 4096, 128 + c / 64 % 64, 128 + c % 64]
  else [240 + c / 262144, 128 + c / 4096 % 64, 128 + c / 64 % 64, 128 + c % 64]

/-- Model of `new TextEncoder().encode(s)`. -/
def utf8Encode (s : String) : List Nat :=
  s.data.flatMap (fun c => utf8Bytes c.toNat)

/-- Truncation to a 32-bit word. -/
def w32 (n : Nat) : Nat := n % 4294967296

/-- Right rotation of a 32-bit word. -/
def rotr (x k : Nat) : Nat := w32 ((x >>> k) ||| (x <<< (32 - k)))

/-- The first 64 prime numbers, from which FIPS 180-4 derives the SHA-256
constants. -/
def primes64 : List Nat :=
  [2, 3, 5, 7, 11, 13, 17, 19,
   23, 29, 31, 37, 41, 43, 47, 53,
   59, 61, 67, 71, 73, 79, 83, 89,
   97, 101, 103, 107, 109, 113, 127, 131,
   137, 139, 149, 151, 157, 163, 167, 173,
   179, 181, 191, 193, 197, 199, 211, 223,
   227, 229, 233, 239, 241, 251, 257, 263,
   269, 271, 277, 281, 283, 293, 307, 311]

/-- Integer cube root (largest `r` with `r ^ 3 ≤ n`, for `n < 2 ^ 108`),
found one binary digit at a time. -/
def icbrt (n : Nat) : Nat :=
  (List.range 36).foldl
    (fun r i =>
      let c := r + 2 ^ (35 - i)
      if c ^ 3 ≤ n then c else r)
    0

/-- SHA-256 initial hash value (FIPS 180-4): the first 32 bits of the
fractional parts of the square roots of the first 8 primes. -/
def sha256H0 : List Nat :=
  (primes64.take 8).map (fun p => Nat.sqrt (p * 2 ^ 64) % 2 ^ 32)

/-- SHA-256 round constants (FIPS 180-4): the first 32 bits of the
fractional parts of the cube roots of the first 64 primes. -/
def sha256K : List Nat :=
  primes64.map (fun p => icbrt (p * 2 ^ 96) % 2 ^ 32)

/-- Big-endian bytes of `n`, `k` bytes wide. -/
def beBytes (k n : Nat) : List Nat :=
  (List.range k).map (fun i => n >>> (8 * (k - 1 - i)) % 256)

/-- SHA-256 message padding: `0x80`, zeros to 56 mod 64, then the bit
length as a 64-bit big-endian integer. -/
def sha256Pad (msg : List Nat) : List Nat :=
  let z := (120 - (msg.length + 1) % 64) % 64
  msg ++ 128 :: List.replicate z 0 ++ beBytes 8 (8 * msg.length)

/-- Four big-endian bytes to one 32-bit word, over a 64-byte block. -/
def toWords : List Nat → List Nat
  | a :: b :: c :: d :: rest =>
      (a * 16777216 + b * 65536 + c * 256 + d) :: toWords rest
  | _ => []

/-- Extension of the 16 block words to the 64-entry message schedule. -/
def sha256Schedule (w : List Nat) : List Nat :=
  (List.range 48).foldl
    (fun acc _ =>
      let n := acc.length
      let s0 :=
        (rotr (acc.getD (n - 15) 0) 7) ^^^ (rotr (acc.getD (n - 15) 0) 18)
          ^^^ (acc.getD (n - 15) 0 >>> 3)
      let s1 :=
        (rotr (acc.getD (n - 2) 0) 17) ^^^ (rotr (acc.getD (n - 2) 0) 19)
          ^^^ (acc.getD (n - 2) 0 >>> 10)
      acc ++ [w32 (acc.getD (n - 16) 0 + s0 + acc.getD (n - 7) 0 + s1)])
    w

/-- SHA-256 compression of one 64-byte block into the running hash. -/
def sha256Block (h : List Nat) (block : List Nat) : List Nat :=
  let w := sha256Schedule (toWords block)
  let st := (List.range 64).foldl
    (fun st t =>
      match st with
      | [a, b, c, d, e, f, g, hh] =>
          let S1 := (rotr e 6) ^^^ (rotr e 11) ^^^ (rotr e 25)
          let ch := (e &&& f) ^^^ ((e ^^^ 4294967295) &&& g)
          let T1 := w32 (hh + S1 + ch + sha256K.getD t 0 + w.getD t 0)
          let S0 := (rotr a 2) ^^^ (rotr a 13) ^^^ (rotr a 22)
          let mj := (a &&& b) ^^^ (a &&& c) ^^^ (b &&& c)
          let T2 := w32 (S0 + mj)
          [w32 (T1 + T2), a, b, c, w32 (d + T1), e, f, g]
      | other => other)
    h
  (h.zip st).map (fun p => w32 (p.1 + p.2))

/-- SHA-256 digest (list of 32 bytes) of a byte message, per FIPS 180-4;
this models the platform `crypto.subtle.digest("SHA-256", ...)`. -/
def sha256 (msg : List Nat) : List Nat :=
  let bytes := sha256Pad msg
  let blocks :=
    (List.range (bytes.length / 64)).map
      (fun i => (bytes.drop (64 * i)).take 64)
  (blocks.foldl sha256Block sha256H0).flatMap (beBytes 4)

/-- Lowercase hexadecimal digit. -/
def hexChar (n : Nat) : Char :=
  Char.ofNat (if n < 10 then 48 + n else 87 + n)

/-- Model of `b.toString(16).padStart(2, "0")` for a byte. -/
def byteHex (b : Nat) : String := String.mk [hexChar (b / 16), hexChar (b % 16)]

/-- Model of `_hash(pin)` (`db.js` lines 293-299): hex digest of the SHA-256 of the
UTF-8 bytes of the fixed salt `"bp_v5_salt_"` concatenated with the PIN. -/
def _hash (pin : String) : String :=
  ((sha256 (utf8Encode ("bp_v5_salt_" ++ pin))).map byteHex).foldl (· ++ ·) ""

/-- The username normalization of `createUser` / `verifyUser`:
`username.trim().toLowerCase()` (modelled with ASCII lowercasing, which
covers every username the claims exercise). -/
def normUsername (username : String) : String := jsLower (jsTrim username)

/-- Model of `DB.createUser(username, pin)` (`db.js` lines 141-149): normalize,
check the minimum length, check uniqueness through the `ix_username`
index, hash the PIN, insert with the next autoincrement key, and return
the `{id, username}` view. -/
def createUser (s : Store) (username pin : String) (ts : Nat) :
    Except String (Store × UserView) :=
  let u := normUsername username
  if u.length < 2 then .error "Nom trop court (2 caractères min)."
  else
    match s.users.find? (fun x => x.username == u) with
    | some _ => .error "Ce nom est déjà utilisé."
    | none =>
        let newUser : User :=
          { id := s.nextUserId, username := u, pinHash := _hash pin, createdAt := ts }
        .ok ({ s with users := s.users ++ [newUser], nextUserId := s.nextUserId + 1 },
             { id := newUser.id, username := u })

/-- Runner for `createUser`: the operation together with the store it leaves behind (unchanged on the
two validation throws, which happen before `_add` runs). -/
def createUserRun (s : Store) (username pin : String) (ts : Nat) :
    Store × Except String UserView :=
  match createUser s username pin ts with
  | .error m => (s, .error m)
  | .ok (s', v) => (s', .ok v)

/-- Model of `DB.verifyUser(username, pin)` (`db.js` lines 151-157): look the
normalized username up through the unique index, recompute the hash and
compare it to the stored one. -/
def verifyUser (s : Store) (username pin : String) : Except String UserView :=
  let u := normUsername username
  match s.users.find? (fun x => x.username == u) with
  | none => .error "Utilisateur introuvable."
  | some user =>
      if _hash pin == user.pinHash then
        .ok { id := user.id, username := user.username }
      else .error "Code PIN incorrect."

/-- A fixed clock used by the concrete test runs below. -/
def clkC : Clock := ⟨"2024-03-10", "2024-03-08", "2024-03-04"⟩

/-- A fully valid expense input used by the concrete test runs below. -/
def inpOk : ExpenseInput :=
  ⟨"Taxi", some 1500, "Transport", "2024-03-10", some 8, some 30⟩

/-- A valid input whose amount `1.239` carries three decimals. -/
def inpThreeDec : ExpenseInput :=
  ⟨"Taxi", some (1239 / 1000), "Transport", "2024-03-10", some 8, some 30⟩

/-- A valid input except for its negative amount. -/
def inpNegAmount : ExpenseInput :=
  ⟨"Taxi", some (-5), "Transport", "2024-03-10", some 8, some 30⟩

/-- A valid input whose hour field carries the out-of-range number 99. -/
def inpHour99 : ExpenseInput :=
  ⟨"Taxi", some 1500, "Transport", "2024-03-10", some 99, some 30⟩

/-- A stored expense owned by user 1, used by the concrete test runs. -/
def expC : Expense := ⟨1, 1, "Taxi", 1500, "Transport", "2024-03-10", 8, 30, 5⟩

/-- A store holding exactly `expC`. -/
def storeC : Store := ⟨[], 1, [expC], 2⟩

/-- A store holding exactly the user `alice` (pin 1234), as `createUser`
leaves it behind. -/
def storeU : Store :=
  ⟨[⟨1, "alice", _hash "1234", 7⟩], 2, [], 1⟩

theorem expLE_eq_true_iff (a b : Expense) : expLE a b = true ↔
    b.date < a.date ∨ b.date = a.date ∧
      (b.hour < a.hour ∨ b.hour = a.hour ∧
        (b.minute < a.minute ∨ b.minute = a.minute ∧ b.ts ≤ a.ts)) := by
  simp [expLE, Bool.or_eq_true, Bool.and_eq_true, decide_eq_true_eq, beq_iff_eq]

theorem expLE_trans : ∀ (a b c : Expense),
    expLE a b = true → expLE b c = true → expLE a c = true := by
  intro a b c hab hbc
  rw [expLE_eq_true_iff] at hab hbc ⊢
  rcases hab with h1 | ⟨d1, h1⟩
  · rcases hbc with h2 | ⟨d2, h2⟩
    · exact Or.inl (h2.trans h1)
    · exact Or.inl (lt_of_eq_of_lt d2 h1)
  · rcases hbc with h2 | ⟨d2, h2⟩
    · exact Or.inl (lt_of_lt_of_eq h2 d1)
    · refine Or.inr ⟨d2.trans d1, ?_⟩
      rcases h1 with h1 | ⟨e1, h1⟩
      · rcases h2 with h2 | ⟨e2, h2⟩
        · exact Or.inl (h2.trans h1)
        · exact Or.inl (lt_of_eq_of_lt e2 h1)
      · rcases h2 with h2 | ⟨e2, h2⟩
        · exact Or.inl (lt_of_lt_of_eq h2 e1)
        · refine Or.inr ⟨e2.trans e1, ?_⟩
          rcases h1 with h1 | ⟨f1, h1⟩
          · rcases h2 with h2 | ⟨f2, h2⟩
            · exact Or.inl (h2.trans h1)
            · exact Or.inl (lt_of_eq_of_lt f2 h1)
          · rcases h2 with h2 | ⟨f2, h2⟩
            · exact Or.inl (lt_of_lt_of_eq h2 f1)
            · exact Or.inr ⟨f2.trans f1, h2.trans h1⟩

theorem expLE_total : ∀ (a b : Expense), (expLE a b || expLE b a) = true := by
  intro a b
  simp only [Bool.or_eq_true, expLE_eq_true_iff]
  rcases lt_trichotomy b.date a.date with h | h | h
  · exact Or.inl (Or.inl h)
  · rcases lt_trichotomy b.hour a.hour with h2 | h2 | h2
    · exact Or.inl (Or.inr ⟨h, Or.inl h2⟩)
    · rcases lt_trichotomy b.minute a.minute with h3 | h3 | h3
      · exact Or.inl (Or.inr ⟨h, Or.inr ⟨h2, Or.inl h3⟩⟩)
      · rcases le_total b.ts a.ts with h4 | h4
        · exact Or.inl (Or.inr ⟨h, Or.inr ⟨h2, Or.inr ⟨h3, h4⟩⟩⟩)
        · exact Or.inr (Or.inr ⟨h.symm, Or.inr ⟨h2.symm, Or.inr ⟨h3.symm, h4⟩⟩⟩)
      · exact Or.inr (Or.inr ⟨h.symm, Or.inr ⟨h2.symm, Or.inl h3⟩⟩)
    · exact Or.inr (Or.inr ⟨h.symm, Or.inl h2⟩)
  · exact Or.inr (Or.inl h)

theorem getExpenses_today_eq (clk : Clock) (s : Store) (uid : Int) :
    getExpenses clk s uid "today" "Toutes"
      = (s.expenses.filter
          (fun e => e.user_id == uid && e.date == clk.today)).mergeSort expLE := by
  have hcat : (("Toutes" : String) != "" && ("Toutes" : String) != "Toutes") = false := by
    decide
  have hp : ∀ e : Expense, periodKeep clk "today" e = (e.date == clk.today) := by
    intro e; simp [periodKeep]
  have hfun : (fun a : Expense => periodKeep clk "today" a && (a.user_id == uid))
      = fun e : Expense => e.user_id == uid && e.date == clk.today := by
    funext e; rw [hp e, Bool.and_comm]
  simp only [getExpenses, hcat, Bool.false_eq_true, if_false, List.filter_filter, hfun]

/-- C1: for every user and store state, `getExpenses(userId, 'today', 'Toutes')`
returns exactly (as a multiset) the expenses whose `user_id` equals the
user and whose `date` equals the date of today, and the returned sequence is
sorted descending by date, then hour, then minute, then insertion
timestamp `ts` (the non-strict lexicographic descending order `expLE`). -/
theorem getExpenses_today_spec (clk : Clock) (s : Store) (uid : Int) :
    (getExpenses clk s uid "today" "Toutes").Perm
        (s.expenses.filter (fun e => e.user_id == uid && e.date == clk.today)) ∧
      (getExpenses clk s uid "today" "Toutes").Pairwise
        (fun a b => expLE a b = true) := by
  rw [getExpenses_today_eq]
  exact ⟨List.mergeSort_perm _ expLE, List.sorted_mergeSort expLE_trans expLE_total _⟩

/-- C10: any period other than the five recognized names (in particular the
default `"all"` and any unrecognized string) applies no date filter at
all: the result is the one of period `"all"`. -/
theorem getExpenses_unknown_period (clk : Clock) (s : Store) (uid : Int)
    (period category : String) (h1 : period ≠ "today") (h2 : period ≠ "3days")
    (h3 : period ≠ "week") (h4 : period ≠ "month") (h5 : period ≠ "year") :
    getExpenses clk s uid period category = getExpenses clk s uid "all" category := by
  have hp : periodKeep clk period = periodKeep clk "all" := by
    funext e; simp [periodKeep, h1, h2, h3, h4, h5]
  simp [getExpenses, hp]

/-- Concrete run of `getExpenses_unknown_period` for the period `'bogus'`. -/
theorem getExpenses_unknown_period_witness :
    getExpenses clkC storeC 1 "bogus" "Toutes" = getExpenses clkC storeC 1 "all" "Toutes" :=
  getExpenses_unknown_period clkC storeC 1 "bogus" "Toutes" (by decide) (by decide)
    (by decide) (by decide) (by decide)

/-- C4: an amount that is zero, negative or non-numeric makes `addExpense`
fail with a validation error and leaves the expense collection (hence its
count) unchanged. -/
theorem addExpense_invalid_amount (s : Store) (uid : Int) (inp : ExpenseInput)
    (ts : Nat) (h : numPos inp.amount = false) :
    (addExpenseRun s uid inp ts).1 = s ∧
      ∃ msg, (addExpenseRun s uid inp ts).2 = Except.error msg := by
  have herr : ∃ msg, addExpense s uid inp ts = .error msg := by
    unfold addExpense
    by_cases hn : jsTrim inp.name = ""
    · rw [if_pos hn]; exact ⟨_, rfl⟩
    · rw [if_neg hn, if_pos (show (!numPos inp.amount) = true by rw [h]; rfl)]
      exact ⟨_, rfl⟩
  obtain ⟨msg, hmsg⟩ := herr
  unfold addExpenseRun
  rw [hmsg]
  exact ⟨rfl, msg, rfl⟩

/-- Concrete run of `addExpense_invalid_amount` on a negative amount. -/
theorem addExpense_invalid_amount_witness :
    (addExpenseRun emptyStore 1 inpNegAmount 0).1 = emptyStore ∧
      ∃ msg, (addExpenseRun emptyStore 1 inpNegAmount 0).2 = Except.error msg :=
  addExpense_invalid_amount emptyStore 1 inpNegAmount 0 (by decide)

/-- C9 counterexample: `addExpense` performs no range check on `hour`, so a
supplied numeric hour of 99 is stored as 99, outside 0-23 (the claim would
require 0 to be substituted). -/
theorem addExpense_hour_range_cex :
    (addExpenseRun emptyStore 1 inpHour99 5).1.expenses.map Expense.hour = [99] ∧
      ¬(99 : Rat) ≤ 23 := by decide

/-- C9 amended: the stored hour and minute equal the supplied numeric
values, with 0 substituted only when the value is absent or non-numeric
(`Number(x) || 0`); in particular the stored values lie in 0-23 / 0-59
whenever the supplied values do (or are absent), but no range check is
performed. -/
theorem addExpense_hour_minute (s : Store) (uid : Int) (inp : ExpenseInput)
    (ts : Nat) (s' : Store) (newId : Nat)
    (h : addExpense s uid inp ts = .ok (s', newId)) :
    ∃ r : Expense, s'.expenses = s.expenses ++ [r] ∧
      r.hour = inp.hour.getD 0 ∧ r.minute = inp.minute.getD 0 ∧
      ((∀ x ∈ inp.hour, 0 ≤ x ∧ x ≤ 23) → 0 ≤ r.hour ∧ r.hour ≤ 23) ∧
      ((∀ x ∈ inp.minute, 0 ≤ x ∧ x ≤ 59) → 0 ≤ r.minute ∧ r.minute ≤ 59) := by
  unfold addExpense at h
  split at h
  · simp at h
  · split at h
    · simp at h
    · split at h
      · simp at h
      · simp only [Except.ok.injEq, Prod.mk.injEq] at h
        obtain ⟨hs, -⟩ := h
        refine ⟨_, by rw [← hs], rfl, rfl, ?_, ?_⟩
        · intro hx
          cases hh : inp.hour with
          | none => simp [hh]
          | some x =>
              have := hx x (by rw [hh]; exact rfl)
              simp [hh, this.1, this.2]
        · intro hx
          cases hh : inp.minute with
          | none => simp [hh]
          | some x =>
              have := hx x (by rw [hh]; exact rfl)
              simp [hh, this.1, this.2]

-- Concrete run of `addExpense_hour_minute` on a valid in-range input.
unseal Rat.mul Rat.add Rat.inv in
theorem addExpense_hour_minute_witness :
    ∃ r : Expense, storeC.expenses = emptyStore.expenses ++ [r] ∧
      r.hour = inpOk.hour.getD 0 ∧ r.minute = inpOk.minute.getD 0 ∧
      ((∀ x ∈ inpOk.hour, 0 ≤ x ∧ x ≤ 23) → 0 ≤ r.hour ∧ r.hour ≤ 23) ∧
      ((∀ x ∈ inpOk.minute, 0 ≤ x ∧ x ≤ 59) → 0 ≤ r.minute ∧ r.minute ≤ 59) :=
  addExpense_hour_minute emptyStore 1 inpOk 5 storeC 1 (by rfl)

/-- C3: deleting an expense with any user id other than that of the owner fails
with the not-found error and leaves the store (hence the record) in place,
and a non-existent expense id fails with the very same error.  The
`Nodup` hypothesis is the IndexedDB primary-key uniqueness of the
`expenses` store. -/
theorem deleteExpense_ownership (s : Store)
    (hids : (s.expenses.map Expense.id).Nodup) :
    (∀ e ∈ s.expenses, ∀ b : Int, b ≠ e.user_id →
        deleteExpenseRun s b e.id = (s, Except.error "Dépense introuvable.") ∧
          e ∈ (deleteExpenseRun s b e.id).1.expenses) ∧
      ∀ (b : Int) (id : Nat), (∀ e ∈ s.expenses, e.id ≠ id) →
        deleteExpenseRun s b id = (s, Except.error "Dépense introuvable.") := by
  constructor
  · intro e he b hb
    have hfind : s.expenses.find? (fun x => x.id == e.id) = some e := by
      have hsome : (s.expenses.find? (fun x => x.id == e.id)).isSome = true :=
        List.find?_isSome.mpr ⟨e, he, by simp⟩
      obtain ⟨e', he'⟩ := Option.isSome_iff_exists.mp hsome
      have hmem : e' ∈ s.expenses := List.mem_of_find?_eq_some he'
      have hid : e'.id = e.id := by
        have := List.find?_some he'
        simpa using this
      have : e' = e := List.inj_on_of_nodup_map hids hmem he hid
      rw [he', this]
    have hne : (e.user_id == b) = false :=
      beq_eq_false_iff_ne.mpr (fun h => hb h.symm)
    have hrun : deleteExpense s b e.id = .error "Dépense introuvable." := by
      unfold deleteExpense
      rw [hfind]
      simp [hne]
    have : deleteExpenseRun s b e.id = (s, Except.error "Dépense introuvable.") := by
      unfold deleteExpenseRun
      rw [hrun]
    exact ⟨this, by rw [this]; exact he⟩
  · intro b id hnone
    have hfind : s.expenses.find? (fun x => x.id == id) = none :=
      List.find?_eq_none.mpr (fun x hx => by simp [hnone x hx])
    unfold deleteExpenseRun deleteExpense
    rw [hfind]

/-- Concrete run of `deleteExpense_ownership`: user 2 cannot delete user
the expense of user 1, and deleting the absent key 42 fails identically. -/
theorem deleteExpense_ownership_witness :
    (deleteExpenseRun storeC 2 1 = (storeC, Except.error "Dépense introuvable.") ∧
        expC ∈ (deleteExpenseRun storeC 2 1).1.expenses) ∧
      deleteExpenseRun storeC 2 42 = (storeC, Except.error "Dépense introuvable.") :=
  ⟨(deleteExpense_ownership storeC (by decide)).1 expC (by decide) 2 (by decide),
    (deleteExpense_ownership storeC (by decide)).2 2 42 (by decide)⟩

theorem mem_getExpenses_all (clk : Clock) (s : Store) (uid : Int) (e : Expense) :
    e ∈ getExpenses clk s uid "all" "Toutes" ↔ e ∈ s.expenses ∧ e.user_id = uid := by
  have hcat : (("Toutes" : String) != "" && ("Toutes" : String) != "Toutes") = false := by
    decide
  have hp : ∀ x : Expense, periodKeep clk "all" x = true := by
    intro x; simp [periodKeep]
  unfold getExpenses
  rw [List.Perm.mem_iff (List.mergeSort_perm _ _)]
  simp [hcat, List.mem_filter, hp, beq_iff_eq]

/-- C2 amended: inserting a valid expense whose name is already trimmed,
whose amount already has at most two decimals, whose category is present
and whose hour and minute are supplied numeric values, then reading back
with `period = "all"`, yields a record whose field values are identical to
the input except for the store-assigned `id` (and the store-assigned
insertion timestamp `ts`).  In general the stored record differs from the
input: the amount is rounded to two decimals, the name trimmed, an absent
category becomes `"Alimentation"` and a non-numeric hour or minute
becomes 0. -/
theorem addExpense_roundTrip (clk : Clock) (s : Store) (uid : Int)
    (inp : ExpenseInput) (ts : Nat) (s' : Store) (newId : Nat) (a hr mi : Rat)
    (hadd : addExpense s uid inp ts = .ok (s', newId))
    (hname : jsTrim inp.name = inp.name)
    (hamt : inp.amount = some a) (hround : toFixed2 a = a)
    (hcat : inp.category ≠ "")
    (hhour : inp.hour = some hr) (hmin : inp.minute = some mi) :
    ∃ r ∈ getExpenses clk s' uid "all" "Toutes",
      r.id = newId ∧ r.user_id = uid ∧ r.name = inp.name ∧ r.amount = a ∧
        r.category = inp.category ∧ r.date = inp.date ∧ r.hour = hr ∧
        r.minute = mi := by
  unfold addExpense at hadd
  split at hadd
  · simp at hadd
  · split at hadd
    · simp at hadd
    · split at hadd
      · simp at hadd
      · simp only [Except.ok.injEq, Prod.mk.injEq] at hadd
        obtain ⟨hs, hid⟩ := hadd
        subst hs
        subst hid
        refine ⟨_, (mem_getExpenses_all clk _ uid _).mpr
          ⟨List.mem_append_right _ (List.mem_singleton.mpr rfl), rfl⟩,
          rfl, rfl, ?_, ?_, ?_, ?_, ?_, ?_⟩
        · exact hname
        · rw [hamt]; exact hround
        · simp [hcat]
        · rfl
        · rw [hhour]; rfl
        · rw [hmin]; rfl

-- C2 counterexample: the input amount `1.239` is a valid positive amount
-- but is stored rounded to `1.24`, so the record read back does not carry
-- field values identical to the input.
unseal Rat.mul Rat.add Rat.inv in
theorem addExpense_roundTrip_cex :
    (addExpenseRun emptyStore 1 inpThreeDec 5).2 = Except.ok 1 ∧
      ∀ r ∈ getExpenses clkC (addExpenseRun emptyStore 1 inpThreeDec 5).1 1
          "all" "Toutes", r.amount ≠ 1239 / 1000 := by
  refine ⟨rfl, ?_⟩
  intro r hr
  rw [mem_getExpenses_all] at hr
  have hE : (addExpenseRun emptyStore 1 inpThreeDec 5).1.expenses
      = [⟨1, 1, "Taxi", 31 / 25, "Transport", "2024-03-10", 8, 30, 5⟩] := by
    decide
  rw [hE] at hr
  rcases hr with ⟨hr, -⟩
  rw [List.mem_singleton.mp hr]
  decide

-- Concrete run of `addExpense_roundTrip` on a fully canonical input.
unseal Rat.mul Rat.add Rat.inv in
theorem addExpense_roundTrip_witness :
    ∃ r ∈ getExpenses clkC storeC 1 "all" "Toutes",
      r.id = 1 ∧ r.user_id = 1 ∧ r.name = inpOk.name ∧ r.amount = 1500 ∧
        r.category = inpOk.category ∧ r.date = inpOk.date ∧ r.hour = 8 ∧
        r.minute = 30 :=
  addExpense_roundTrip clkC emptyStore 1 inpOk 5 storeC 1 1500 8 30 (by rfl)
    (by decide) rfl (by decide) (by decide) rfl rfl

/-- C5: whenever `createUser(username, pin)` succeeds and returns a view,
`verifyUser(username, pin)` on the resulting store succeeds and returns
the same view (same id, same normalized username): `_hash` is a pure
function of the PIN, so the recomputed digest equals the stored one. -/
theorem createUser_then_verifyUser (s s' : Store) (username pin : String)
    (v : UserView) (ts : Nat)
    (h : createUser s username pin ts = .ok (s', v)) :
    verifyUser s' username pin = .ok v := by
  simp only [createUser] at h
  split at h
  · simp at h
  · split at h
    · simp at h
    · next hfind =>
        simp only [Except.ok.injEq, Prod.mk.injEq] at h
        obtain ⟨hs, hv⟩ := h
        subst hs
        subst hv
        simp only [verifyUser, List.find?_append, hfind, Option.none_or,
          List.find?_cons, beq_self_eq_true, beq_iff_eq]
        rfl

-- Concrete run of `createUser_then_verifyUser`: register `alice`, then
-- authenticate with the same PIN.
theorem createUser_then_verifyUser_witness :
    verifyUser storeU "Alice " "1234" = .ok ⟨1, "alice"⟩ :=
  createUser_then_verifyUser emptyStore storeU "Alice " "1234" ⟨1, "alice"⟩ 7
    (by rfl)

/-- C6: once `createUser` has succeeded for a username, any further
`createUser` whose argument normalizes (trim, lowercase) to the same
username fails with the duplicate-user error and inserts no second user
record (the store is returned unchanged). -/
theorem createUser_duplicate (s s' : Store) (u1 p1 : String) (v : UserView)
    (ts1 : Nat) (h : createUser s u1 p1 ts1 = .ok (s', v))
    (u2 p2 : String) (ts2 : Nat) (hnorm : normUsername u2 = normUsername u1) :
    createUserRun s' u2 p2 ts2 = (s', Except.error "Ce nom est déjà utilisé.") := by
  simp only [createUser] at h
  split at h
  · simp at h
  · next hlen =>
      split at h
      · simp at h
      · next hfind =>
          simp only [Except.ok.injEq, Prod.mk.injEq] at h
          obtain ⟨hs, -⟩ := h
          have hcreate : createUser s' u2 p2 ts2
              = .error "Ce nom est déjà utilisé." := by
            rw [← hs]
            simp only [createUser, hnorm, if_neg hlen, List.find?_append, hfind,
              Option.none_or, List.find?_cons, beq_self_eq_true]
          unfold createUserRun
          rw [hcreate]

-- Concrete run of `createUser_duplicate`: `ALICE` collides with the
-- registered `alice`.
theorem createUser_duplicate_witness :
    createUserRun storeU "ALICE" "9999" 3
      = (storeU, Except.error "Ce nom est déjà utilisé.") :=
  createUser_duplicate emptyStore storeU "Alice " "1234" ⟨1, "alice"⟩ 7 (by rfl)
    "ALICE" "9999" 3 (by rfl)

theorem hasKey_objUpd (m : List (String × Rat)) (k k' : String) (v : Rat) :
    hasKey (objUpd m k v) k' = if k' = k then true else hasKey m k' := by
  have hpres : ∀ p : String × Rat,
      ((if p.1 == k then (p.1, v) else p).1 == k') = (p.1 == k') := by
    intro p; split <;> rfl
  unfold objUpd
  by_cases hin : m.any (fun p => p.1 == k)
  · rw [if_pos hin]
    unfold hasKey
    rw [List.any_map]
    have : ((fun p : String × Rat => p.1 == k') ∘
        (fun p => if p.1 == k then (p.1, v) else p)) = fun p => p.1 == k' := by
      funext p; exact hpres p
    rw [this]
    by_cases hk : k' = k
    · subst hk
      simpa [hasKey] using hin
    · rw [if_neg hk]
  · rw [if_neg hin]
    unfold hasKey
    rw [List.any_append]
    by_cases hk : k' = k
    · subst hk
      simp
    · have : ((k : String) == k') = false :=
        beq_eq_false_iff_ne.mpr (fun h => hk h.symm)
      simp [this, hk]

theorem objGetD_objUpd (m : List (String × Rat)) (k k' : String) (v : Rat) :
    objGetD (objUpd m k v) k' = if k' = k then v else objGetD m k' := by
  have hpred : ((fun p : String × Rat => p.1 == k') ∘
      (fun p => if p.1 == k then (p.1, v) else p)) = fun p => p.1 == k' := by
    funext p
    show ((if p.1 == k then (p.1, v) else p).1 == k') = (p.1 == k')
    split <;> rfl
  unfold objUpd
  by_cases hin : m.any (fun p => p.1 == k)
  · rw [if_pos hin]
    unfold objGetD
    rw [List.find?_map, hpred]
    rcases hfind : List.find? (fun p => p.1 == k') m with - | q
    · have hk : k' ≠ k := by
        intro hk
        subst hk
        rcases List.any_eq_true.mp hin with ⟨w, hw, hwk⟩
        exact absurd hwk (List.find?_eq_none.mp hfind w hw)
      simp [hfind, hk]
    · have hq := List.find?_some hfind
      by_cases hk : k' = k
      · subst hk
        simp [hfind, eq_of_beq hq]
      · have hqf : q.1 ≠ k := by
          intro h
          exact hk (by rw [← eq_of_beq hq, h])
        simp [hfind, hqf, hk]
  · rw [if_neg hin]
    unfold objGetD
    rw [List.find?_append]
    by_cases hk : k' = k
    · subst hk
      have hnone : List.find? (fun p => p.1 == k') m = none :=
        List.find?_eq_none.mpr (List.any_eq_false.mp (Bool.not_eq_true _ ▸ hin))
      simp [hnone]
    · have : ((k : String) == k') = false :=
        beq_eq_false_iff_ne.mpr (fun h => hk h.symm)
      simp [List.find?_cons, this, hk, Option.or_none]

theorem catFold_objGetD (l : List Expense) (acc : List (String × Rat))
    (c : String) :
    objGetD (l.foldl catStep acc) c
      = objGetD acc c
          + ((l.filter (fun e => e.category == c)).map Expense.amount).sum := by
  induction l generalizing acc with
  | nil => simp
  | cons e l ih =>
      rw [List.foldl_cons, ih]
      unfold catStep
      rw [objGetD_objUpd]
      by_cases hc : c = e.category
      · subst hc
        simp [List.filter_cons]
        ring
      · have : (e.category == c) = false :=
          beq_eq_false_iff_ne.mpr (fun h => hc h.symm)
        simp [List.filter_cons, this, hc]

theorem catFold_hasKey (l : List Expense) (acc : List (String × Rat))
    (c : String) :
    hasKey (l.foldl catStep acc) c
      = (hasKey acc c || l.any (fun e => e.category == c)) := by
  induction l generalizing acc with
  | nil => simp
  | cons e l ih =>
      rw [List.foldl_cons, ih]
      unfold catStep
      rw [hasKey_objUpd]
      by_cases hc : c = e.category
      · simp [hc]
      · have : (e.category == c) = false :=
          beq_eq_false_iff_ne.mpr (fun h => hc h.symm)
        simp [this, hc]

/-- C8: `statsByCategory(userId, period)` maps a category to the sum of the
amounts of the expenses returned by the underlying all-categories query,
and a category is a key of the result exactly when some expense of that
query carries it. -/
theorem statsByCategory_spec (clk : Clock) (s : Store) (uid : Int)
    (period : String) :
    (∀ c, hasKey (statsByCategory clk s uid period) c = true ↔
        ∃ e ∈ getExpenses clk s uid period "Toutes", e.category = c) ∧
      ∀ c, objGetD (statsByCategory clk s uid period) c
        = (((getExpenses clk s uid period "Toutes").filter
              (fun e => e.category == c)).map Expense.amount).sum := by
  constructor
  · intro c
    simp only [statsByCategory]
    rw [catFold_hasKey]
    simp [hasKey, List.any_eq_true, beq_iff_eq]
  · intro c
    simp only [statsByCategory]
    rw [catFold_objGetD]
    simp [objGetD]

theorem pad2_fin_inj : ∀ a b : Fin 12,
    pad2 ((a : Int) + 1) = pad2 ((b : Int) + 1) → a = b := by decide

theorem pad2_fin_len : ∀ a : Fin 12, (pad2 ((a : Int) + 1)).length = 2 := by decide

theorem emod12_nonneg (t : Int) : 0 ≤ t.emod 12 := by
  have : (t : Int) % 12 ≥ 0 := by omega
  exact this

theorem emod12_lt (t : Int) : t.emod 12 < 12 := by
  have : (t : Int) % 12 < 12 := by omega
  exact this

theorem pad2_emod_len (t : Int) : (pad2 (t.emod 12 + 1)).length = 2 := by
  have h0 := emod12_nonneg t
  have h12 := emod12_lt t
  have hfin := pad2_fin_len ⟨(t.emod 12).toNat, by omega⟩
  have hcast : (((t.emod 12).toNat : Nat) : Int) = t.emod 12 :=
    Int.toNat_of_nonneg h0
  simpa [hcast] using hfin

theorem pad2_emod_inj (t₁ t₂ : Int)
    (h : pad2 (t₁.emod 12 + 1) = pad2 (t₂.emod 12 + 1)) :
    t₁.emod 12 = t₂.emod 12 := by
  have h01 := emod12_nonneg t₁
  have h02 := emod12_nonneg t₂
  have h11 := emod12_lt t₁
  have h12 := emod12_lt t₂
  have hc1 : (((t₁.emod 12).toNat : Nat) : Int) = t₁.emod 12 :=
    Int.toNat_of_nonneg h01
  have hc2 : (((t₂.emod 12).toNat : Nat) : Int) = t₂.emod 12 :=
    Int.toNat_of_nonneg h02
  have := pad2_fin_inj ⟨(t₁.emod 12).toNat, by omega⟩ ⟨(t₂.emod 12).toNat, by omega⟩
    (by simpa [hc1, hc2] using h)
  have hval : (t₁.emod 12).toNat = (t₂.emod 12).toNat := congrArg Fin.val this
  omega

theorem monthKey_emod_eq {y mm₁ mm₂ : Int}
    (h : monthKey y mm₁ = monthKey y mm₂) :
    (jsDateYear y * 12 + mm₁).emod 12 = (jsDateYear y * 12 + mm₂).emod 12 := by
  simp only [monthKey] at h
  have hd := congrArg String.data h
  rw [String.data_append, String.data_append, String.data_append,
    String.data_append] at hd
  have l1 : (pad2 ((jsDateYear y * 12 + mm₁).emod 12 + 1)).data.length = 2 :=
    pad2_emod_len (jsDateYear y * 12 + mm₁)
  have l2 : (pad2 ((jsDateYear y * 12 + mm₂).emod 12 + 1)).data.length = 2 :=
    pad2_emod_len (jsDateYear y * 12 + mm₂)
  have hsuffix := (List.append_inj' hd (l1.trans l2.symm)).2
  exact pad2_emod_inj _ _ (String.ext hsuffix)

theorem statsKeys_nodup (y m : Int) : (statsKeys y m).Nodup := by
  unfold statsKeys
  have hinj : ∀ i ∈ List.range 12, ∀ j ∈ List.range 12,
      monthKey y (m - 11 + (i : Int)) = monthKey y (m - 11 + (j : Int)) →
        i = j := by
    intro i hi j hj hkey
    have hemod := monthKey_emod_eq hkey
    have hi' := List.mem_range.mp hi
    have hj' := List.mem_range.mp hj
    have h' : (jsDateYear y * 12 + (m - 11 + (i : Int))) % 12
        = (jsDateYear y * 12 + (m - 11 + (j : Int))) % 12 := hemod
    omega
  exact List.Nodup.map_on hinj (List.nodup_range 12)

theorem statsKeys_length (y m : Int) : (statsKeys y m).length = 12 := by
  rw [statsKeys, List.length_map, List.length_range]

theorem initMap_objGetD (keys : List String) (k : String) :
    objGetD (keys.foldl (fun acc k => objUpd acc k 0) []) k = 0 := by
  suffices h : ∀ acc : List (String × Rat), (∀ k', objGetD acc k' = 0) →
      ∀ k', objGetD (keys.foldl (fun acc k => objUpd acc k 0) acc) k' = 0 by
    exact h [] (fun _ => rfl) k
  induction keys with
  | nil => intro acc hacc k'; exact hacc k'
  | cons k0 rest ih =>
      intro acc hacc k'
      rw [List.foldl_cons]
      refine ih _ (fun k'' => ?_) k'
      rw [objGetD_objUpd]
      by_cases hk : k'' = k0
      · simp [hk]
      · simp [hk, hacc k'']

theorem initMap_hasKey (keys : List String) (k : String) :
    hasKey (keys.foldl (fun acc k => objUpd acc k 0) []) k = decide (k ∈ keys) := by
  suffices h : ∀ acc : List (String × Rat),
      hasKey (keys.foldl (fun acc k => objUpd acc k 0) acc) k
        = (hasKey acc k || decide (k ∈ keys)) by
    rw [h []]
    simp [hasKey]
  induction keys with
  | nil => intro acc; simp
  | cons k0 rest ih =>
      intro acc
      rw [List.foldl_cons, ih]
      rw [hasKey_objUpd]
      by_cases hk : k = k0
      · simp [hk]
      · simp [hk]

theorem monthStep_hasKey (acc : List (String × Rat)) (e : Expense) (k : String) :
    hasKey (monthStep acc e) k = hasKey acc k := by
  simp only [monthStep]
  by_cases hin : hasKey acc (strTake e.date 7)
  · rw [if_pos hin, hasKey_objUpd]
    by_cases hk : k = strTake e.date 7
    · subst hk; simp [hin]
    · simp [hk]
  · rw [if_neg hin]

theorem monthFold_objGetD (l : List Expense) (acc : List (String × Rat))
    (k : String) :
    objGetD (l.foldl monthStep acc) k
      = objGetD acc k +
          (if hasKey acc k then
            ((l.filter (fun e => strTake e.date 7 == k)).map Expense.amount).sum
          else 0) := by
  induction l generalizing acc with
  | nil => simp
  | cons e l ih =>
      rw [List.foldl_cons, ih, monthStep_hasKey]
      simp only [monthStep]
      by_cases hm : k = strTake e.date 7
      · subst hm
        by_cases hin : hasKey acc (strTake e.date 7)
        · rw [if_pos hin, if_pos hin, if_pos hin, objGetD_objUpd, if_pos rfl,
            List.filter_cons]
          simp
          ring
        · rw [if_neg hin, if_neg hin, if_neg hin]
      · have hbeq : (strTake e.date 7 == k) = false :=
          beq_eq_false_iff_ne.mpr (fun h => hm h.symm)
        by_cases hin : hasKey acc (strTake e.date 7)
        · rw [if_pos hin, objGetD_objUpd, if_neg hm, List.filter_cons, hbeq]
          simp
        · rw [if_neg hin, List.filter_cons, hbeq]
          simp

theorem sum_filter_or (l : List Expense) (p q : Expense → Bool)
    (hdisj : ∀ e, p e = true → q e = false) :
    ((l.filter (fun e => p e || q e)).map Expense.amount).sum
      = ((l.filter p).map Expense.amount).sum
        + ((l.filter q).map Expense.amount).sum := by
  induction l with
  | nil => simp
  | cons e l ih =>
      cases hp : p e with
      | true =>
          have hq : q e = false := hdisj e hp
          simp [List.filter_cons, hp, hq, ih]
          ring
      | false =>
          cases hq : q e with
          | true => simp [List.filter_cons, hp, hq, ih]; ring
          | false => simp [List.filter_cons, hp, hq, ih]

theorem sum_over_keys (keys : List String) (hnd : keys.Nodup)
    (l : List Expense) :
    (keys.map (fun k =>
        ((l.filter (fun e => strTake e.date 7 == k)).map Expense.amount).sum)).sum
      = ((l.filter (fun e => decide (strTake e.date 7 ∈ keys))).map
          Expense.amount).sum := by
  induction keys with
  | nil => simp
  | cons k ks ih =>
      obtain ⟨hk, hnd'⟩ := List.nodup_cons.mp hnd
      rw [List.map_cons, List.sum_cons, ih hnd']
      have hpred : (fun e : Expense => decide (strTake e.date 7 ∈ k :: ks))
          = fun e => (strTake e.date 7 == k) || decide (strTake e.date 7 ∈ ks) := by
        funext e
        refine Bool.eq_iff_iff.mpr ?_
        simp [List.mem_cons, beq_iff_eq]
      rw [hpred, sum_filter_or]
      intro e hp
      rw [eq_of_beq hp]
      simp [hk]

/-- C7: `statsByMonth(userId)` returns exactly 12 label/value pairs for the
12 trailing calendar months (the keys `statsKeys y m` built from the
year and month of the clock), a month without matching expenses keeps its
initial value 0, and the 12 values sum to the total amount of the
expenses of that user whose `date.slice(0, 7)` falls among those 12
months. -/
theorem statsByMonth_spec (s : Store) (uid : Int) (y m : Int) :
    (statsByMonth s uid y m).1.length = 12 ∧
      (statsByMonth s uid y m).2.length = 12 ∧
      (∀ i, i < 12 →
        (∀ e ∈ s.expenses, e.user_id = uid →
            strTake e.date 7 ≠ (statsKeys y m).getD i "") →
        (statsByMonth s uid y m).2.getD i 0 = 0) ∧
      (statsByMonth s uid y m).2.sum
        = (((s.expenses.filter (fun e => e.user_id == uid)).filter
              (fun e => decide (strTake e.date 7 ∈ statsKeys y m))).map
            Expense.amount).sum := by
  have hklen := statsKeys_length y m
  have hknd := statsKeys_nodup y m
  have hval : ∀ k ∈ statsKeys y m,
      objGetD ((s.expenses.filter (fun e => e.user_id == uid)).foldl monthStep
          ((statsKeys y m).foldl (fun acc k => objUpd acc k 0) [])) k
        = (((s.expenses.filter (fun e => e.user_id == uid)).filter
              (fun e => strTake e.date 7 == k)).map Expense.amount).sum := by
    intro k hk
    rw [monthFold_objGetD, initMap_objGetD, initMap_hasKey]
    simp [hk]
  refine ⟨?_, ?_, ?_, ?_⟩
  · simp only [statsByMonth]
    rw [List.length_map, hklen]
  · simp only [statsByMonth]
    rw [List.length_map, hklen]
  · intro i hi hempty
    simp only [statsByMonth]
    have hilen : i < (statsKeys y m).length := by rw [hklen]; exact hi
    have hilen2 : i < ((statsKeys y m).map (fun k =>
        objGetD ((s.expenses.filter (fun e => e.user_id == uid)).foldl monthStep
          ((statsKeys y m).foldl (fun acc k => objUpd acc k 0) [])) k)).length := by
      rw [List.length_map]; exact hilen
    rw [List.getD_eq_getElem _ _ hilen2, List.getElem_map,
      hval _ (List.getElem_mem hilen)]
    have hnil : (s.expenses.filter (fun e => e.user_id == uid)).filter
        (fun e => strTake e.date 7 == (statsKeys y m)[i]) = [] := by
      rw [List.filter_eq_nil_iff]
      intro e he
      have hmem := List.mem_filter.mp he
      have huser : e.user_id = uid := by simpa using hmem.2
      have hne := hempty e hmem.1 huser
      rw [List.getD_eq_getElem _ _ hilen] at hne
      simpa using hne
    rw [hnil]
    simp
  · simp only [statsByMonth]
    have hmap : (statsKeys y m).map (fun k =>
        objGetD ((s.expenses.filter (fun e => e.user_id == uid)).foldl monthStep
          ((statsKeys y m).foldl (fun acc k => objUpd acc k 0) [])) k)
        = (statsKeys y m).map (fun k =>
          (((s.expenses.filter (fun e => e.user_id == uid)).filter
              (fun e => strTake e.date 7 == k)).map Expense.amount).sum) :=
      List.map_congr_left hval
    rw [hmap]
    exact sum_over_keys _ hknd _

-- Concrete run of `statsByMonth_spec` at a fixed clock (September 2025,
-- month index 8) over the one-expense store.
theorem statsByMonth_spec_witness :
    (statsByMonth storeC 1 2025 8).1.length = 12 ∧
      (statsByMonth storeC 1 2025 8).2.length = 12 ∧
      (∀ i, i < 12 →
        (∀ e ∈ storeC.expenses, e.user_id = 1 →
            strTake e.date 7 ≠ (statsKeys 2025 8).getD i "") →
        (statsByMonth storeC 1 2025 8).2.getD i 0 = 0) ∧
      (statsByMonth storeC 1 2025 8).2.sum
        = (((storeC.expenses.filter (fun e => e.user_id == 1)).filter
              (fun e => decide (strTake e.date 7 ∈ statsKeys 2025 8))).map
            Expense.amount).sum :=
  statsByMonth_spec storeC 1 2025 8
